import Mathlib

/-!
Verification development for the `lifei6671/i18n` Go template engine.

The definitions below are a shallow embedding of the Go source
(`template.go` / `registry.go` / `i18n.go`): the parser, the AST
evaluator, the value resolver, the built-in formatters, the AST cache
and the `Locale.T` translation entry point.  Go's dynamic `any` values
become the inductive type `Value`; Go's `float64` values are embedded
as exact decimal numbers (`Dec`, an integer mantissa with a power-of-ten
denominator), which coincides with IEEE behaviour on every decimal
quantity the engine's tests and examples exercise; Go maps become
association lists; fallible Go functions return `Except String`.
All definitions are executable and kernel-reducible.
-/

namespace I18n

/-! ## Character / string helpers (ASCII models of the Go `strings` functions) -/

/-- Model of `unicode.IsSpace` restricted to the ASCII whitespace characters. -/
def isSpaceGo (c : Char) : Bool :=
  c = ' ' || c = '\t' || c = '\n' || c = '\x0b' || c = '\x0c' || c = '\r'

/-- Model of `strings.TrimSpace` on the character list. -/
def goTrimChars (cs : List Char) : List Char :=
  ((cs.dropWhile isSpaceGo).reverse.dropWhile isSpaceGo).reverse

/-- Model of `strings.TrimSpace`. -/
def goTrim (s : String) : String :=
  String.mk (goTrimChars s.toList)

/-- Model of `strings.Split` with a single-character separator: splits at
every occurrence, always returning at least one (possibly empty) part. -/
def goSplitChars (sep : Char) : List Char → List (List Char)
  | [] => [[]]
  | c :: rest =>
    if c = sep then [] :: goSplitChars sep rest
    else
      match goSplitChars sep rest with
      | h :: t => (c :: h) :: t
      | [] => [[c]]

/-- Model of `strings.Split(s, sep)` for a one-character separator. -/
def goSplit (s : String) (sep : Char) : List String :=
  (goSplitChars sep s.toList).map String.mk

/-- Model of `strings.SplitN(s, sep, 2)` for a one-character separator:
`none` when the separator does not occur (Go returns a one-element slice),
otherwise the parts before and after the first occurrence. -/
def splitFirst (s : String) (sep : Char) : Option (String × String) :=
  let cs := s.toList
  if cs.contains sep then
    some (String.mk (cs.takeWhile (· ≠ sep)),
          String.mk ((cs.dropWhile (· ≠ sep)).drop 1))
  else none

/-- Model of `strings.Contains(s, sep)` for a one-character pattern. -/
def goContains (s : String) (sep : Char) : Bool :=
  s.toList.contains sep

/-- Model of `strings.HasPrefix`. -/
def goHasPrefix (s p : String) : Bool :=
  p.toList.isPrefixOf s.toList

/-- Model of `strings.TrimPrefix`. -/
def goTrimPrefix (s p : String) : String :=
  if goHasPrefix s p then String.mk (s.toList.drop p.toList.length) else s

/-- Model of `strings.ReplaceAll(s, ",", "")`: removing every occurrence of a
single character. -/
def removeChar (s : String) (c : Char) : String :=
  String.mk (s.toList.filter (· ≠ c))

/-- Model of ASCII `strings.ToUpper`. -/
def goToUpper (s : String) : String :=
  String.mk (s.toList.map Char.toUpper)

/-- Model of ASCII `strings.ToLower`. -/
def goToLower (s : String) : String :=
  String.mk (s.toList.map Char.toLower)

/-- Model of `strings.EqualFold` on the ASCII fragment: case-insensitive
string equality. -/
def eqFold (a b : String) : Bool :=
  goToLower a == goToLower b

/-- Model of the word-separator test used by `strings.Title` (ASCII fragment):
alphanumeric characters and underscore are not separators. -/
def isSepGo (c : Char) : Bool :=
  !(c.isAlphanum || c = '_')

/-- Helper for `goTitle`: upper-cases a character when the previous one is a
separator. -/
def goTitleChars : Char → List Char → List Char
  | _, [] => []
  | prev, c :: rest =>
    (if isSepGo prev then c.toUpper else c) :: goTitleChars c rest

/-- Model of (deprecated) `strings.Title`: capitalizes the first letter of
every word. -/
def goTitle (s : String) : String :=
  String.mk (goTitleChars ' ' s.toList)

/-- Model of the `%q` verb on a string value (ASCII fragment without escapes). -/
def quoteGo (s : String) : String :=
  "\"" ++ s ++ "\""

/-! ## Decimal numbers

Go's `float64` values are embedded as exact decimals `m / 10 ^ e`.  Every
numeric literal appearing in the engine's templates and argument bags is such
a decimal, and on these the IEEE comparisons and fixed-point formatting the
code performs agree with the exact arithmetic below. -/

/-- Exact decimal number `m / 10 ^ e`, embedding Go's `float64`. -/
structure Dec where
  m : Int
  e : Nat
deriving DecidableEq, Repr

/-- Kernel-friendly power of ten. -/
def pow10 : Nat → Nat
  | 0 => 1
  | n+1 => 10 * pow10 n

namespace Dec

/-- Embeds an integer as a decimal. -/
def ofInt (n : Int) : Dec := ⟨n, 0⟩

/-- Value-equality of two decimals (cross multiplication). -/
def deq (a b : Dec) : Bool :=
  a.m * (pow10 b.e : Nat) == b.m * (pow10 a.e : Nat)

/-- Value-order of two decimals (cross multiplication). -/
def dlt (a b : Dec) : Bool :=
  decide (a.m * (pow10 b.e : Nat) < b.m * (pow10 a.e : Nat))

end Dec

/-- Converts a digit list (most significant first) to a natural number. -/
def digitsToNat (ds : List Char) : Nat :=
  ds.foldl (fun acc c => 10 * acc + (c.toNat - '0'.toNat)) 0

/-- Model of `strconv.Atoi` on the decimal fragment: an optional sign followed
by at least one digit and nothing else (64-bit overflow is not modelled). -/
def goAtoi (s : String) : Option Int :=
  let cs := s.toList
  let (neg, ds) :=
    match cs with
    | '-' :: r => (true, r)
    | '+' :: r => (false, r)
    | r => (false, r)
  if ds.isEmpty then none
  else if ds.all Char.isDigit then
    some (if neg then -(digitsToNat ds : Int) else (digitsToNat ds : Int))
  else none

/-- Helper for `parseDecimal`: parses an optional exponent suffix
(`e`/`E`, optional sign, digits) and applies it to the mantissa. -/
def parseExpPart (sign : Bool) (intD fracD : List Char) : List Char → Option Dec
  | [] =>
    let m : Int := digitsToNat intD * pow10 fracD.length + digitsToNat fracD
    some ⟨if sign then -m else m, fracD.length⟩
  | e :: r =>
    if e = 'e' || e = 'E' then
      let (esign, r2) :=
        match r with
        | '+' :: r2 => (false, r2)
        | '-' :: r2 => (true, r2)
        | r2 => (false, r2)
      let ed := r2.takeWhile Char.isDigit
      let r3 := r2.dropWhile Char.isDigit
      if ed.isEmpty || !r3.isEmpty then none
      else
        let k := digitsToNat ed
        let m0 : Int := digitsToNat intD * pow10 fracD.length + digitsToNat fracD
        let m : Int := if sign then -m0 else m0
        if esign then some ⟨m, fracD.length + k⟩
        else some ⟨m * pow10 k, fracD.length⟩
    else none

/-- Model of `strconv.ParseFloat` on the decimal fragment: optional sign,
digits with an optional fractional part (at least one digit overall), and an
optional decimal exponent.  `Inf`/`NaN`/hex floats are outside the embedded
value universe. -/
def parseDecimal (s : String) : Option Dec :=
  let cs := s.toList
  let (sign, cs1) :=
    match cs with
    | '+' :: r => (false, r)
    | '-' :: r => (true, r)
    | r => (false, r)
  let intD := cs1.takeWhile Char.isDigit
  let rest1 := cs1.dropWhile Char.isDigit
  match rest1 with
  | '.' :: rest2 =>
    let fracD := rest2.takeWhile Char.isDigit
    let rest3 := rest2.dropWhile Char.isDigit
    if intD.isEmpty && fracD.isEmpty then none
    else parseExpPart sign intD fracD rest3
  | _ =>
    if intD.isEmpty then none else parseExpPart sign intD [] rest1

/-- Left-pads a digit string with zeros up to the given length. -/
def padLeftZeros (s : String) (len : Nat) : String :=
  if s.toList.length ≥ len then s
  else String.mk (List.replicate (len - s.toList.length) '0') ++ s

/-- Fixed-point formatting of a decimal with `p` digits after the point,
rounding to nearest with ties to even: the model of `fmt.Sprintf` with a
`%.pf` verb (for non-negative `p`). -/
def fixedFmt (d : Dec) (p : Nat) : String :=
  let neg := d.m < 0
  let n := d.m.natAbs * pow10 p
  let den := pow10 d.e
  let q := n / den
  let r := n % den
  let rounded :=
    if 2 * r < den then q
    else if 2 * r > den then q + 1
    else if q % 2 = 0 then q else q + 1
  let digits := padLeftZeros (toString rounded) (p + 1)
  let body :=
    if p = 0 then digits
    else String.mk (digits.toList.take (digits.toList.length - p)) ++ "." ++
         String.mk (digits.toList.drop (digits.toList.length - p))
  if neg then "-" ++ body else body

/-- Canonicalizes a decimal by removing trailing zero factors of ten
(fuelled by the exponent, so structural). -/
def decCanon : Nat → Int → Nat × Int
  | 0, m => (0, m)
  | e+1, m => if m % 10 = 0 then decCanon e (m / 10) else (e+1, m)

/-- Model of `fmt.Sprint` / the `%v` verb on a `float64`: the shortest decimal
representation, restricted to the plain (non-exponent) regime the engine's
values inhabit. -/
def goFloatStr (d : Dec) : String :=
  let (e, m) := decCanon d.e d.m
  if e = 0 then toString m
  else
    let neg := m < 0
    let digits := padLeftZeros (toString m.natAbs) (e + 1)
    let body := String.mk (digits.toList.take (digits.toList.length - e)) ++ "." ++
                String.mk (digits.toList.drop (digits.toList.length - e))
    if neg then "-" ++ body else body

/-! ## The dynamic value universe

Embedding of the Go `any` values the engine manipulates: integers
(`int`/`int64`), floats (`float64`/`float32`), strings, string-keyed maps,
struct values, one level of pointer indirection, and `nil`.  `time.Time`
values are outside the embedded universe. -/

/-- Embedded Go runtime value. -/
inductive Value where
  | vInt (n : Int)
  | vFloat (d : Dec)
  | vStr (s : String)
  | vMap (entries : List (String × Value))
  | vRec (fields : List (String × Value))
  | vPtr (v : Value)
  | vNull

/-- Argument bag: the embedding of `map[string]any`. -/
abbrev Args := List (String × Value)

/-- Go type name of an embedded value, as printed by the `%T` verb. -/
def goTypeName : Value → String
  | .vInt _ => "int"
  | .vFloat _ => "float64"
  | .vStr _ => "string"
  | .vMap _ => "map[string]interface \x7b\x7d"
  | .vRec _ => "struct"
  | .vPtr _ => "ptr"
  | .vNull => "<nil>"

/-- Exact-key association-list lookup: the embedding of a Go map index
expression. -/
def lookupAssoc (entries : List (String × Value)) (k : String) : Option Value :=
  match entries with
  | [] => none
  | (k', v) :: rest => if k' = k then some v else lookupAssoc rest k

/-- Insertion into a sorted string list, for printing maps the way Go's
`fmt` does (keys in sorted order). -/
def insertSorted (x : String) : List String → List String
  | [] => [x]
  | y :: rest => if decide (x < y) then x :: y :: rest else y :: insertSorted x rest

/-- Insertion sort on strings. -/
def sortStrings : List String → List String
  | [] => []
  | x :: rest => insertSorted x (sortStrings rest)

/-- Intersperses single spaces, as Go's `fmt` does between map entries and
struct fields. -/
def joinSpace : List String → String
  | [] => ""
  | [x] => x
  | x :: rest => x ++ " " ++ joinSpace rest

mutual

/-- Model of `fmt.Sprint` on an embedded value (`%v` formatting): numbers in
decimal, strings verbatim, maps as `map[k:v ...]` with sorted keys, structs
as brace-wrapped field values, `&`-prefixed pointees, `<nil>` for nil. -/
def sprintValue : Value → String
  | .vInt n => toString n
  | .vFloat d => goFloatStr d
  | .vStr s => s
  | .vNull => "<nil>"
  | .vPtr v => "&" ++ sprintValue v
  | .vMap es => "map[" ++ joinSpace (sortStrings (sprintEntries es)) ++ "]"
  | .vRec fs => "\x7b" ++ joinSpace (sprintFieldVals fs) ++ "\x7d"

/-- Renders each map entry as `key:value`. -/
def sprintEntries : List (String × Value) → List String
  | [] => []
  | (k, v) :: rest => (k ++ ":" ++ sprintValue v) :: sprintEntries rest

/-- Renders each struct field value. -/
def sprintFieldVals : List (String × Value) → List String
  | [] => []
  | (_, v) :: rest => sprintValue v :: sprintFieldVals rest

end

/-! ## Value resolver (`getValueByPath`) -/

/-- Case-insensitive struct-field lookup: the embedding of
`reflect.Value.FieldByNameFunc` with a `strings.EqualFold` matcher, including
its rule that several matching fields cancel out to no match. -/
def lookupFold (fields : List (String × Value)) (seg : String) : Option Value :=
  match fields.filter (fun kv => eqFold kv.1 seg) with
  | [kv] => some kv.2
  | _ => none

/-- One resolution step of `getValueByPath`: a string-keyed map is indexed by
the exact key; any other value is dereferenced through at most one pointer
and must then be a struct, looked up case-insensitively; everything else is
not found. -/
def stepSeg (cur : Value) (seg : String) : Option Value :=
  match cur with
  | .vMap entries => lookupAssoc entries seg
  | other =>
    let r := match other with
      | .vPtr inner => inner
      | v => v
    match r with
    | .vRec fields => lookupFold fields seg
    | _ => none

/-- Iterates `stepSeg` over the path segments. -/
def walkPath : Value → List String → Option Value
  | cur, [] => some cur
  | cur, seg :: rest =>
    match stepSeg cur seg with
    | none => none
    | some v => walkPath v rest

/-- Model of `getValueByPath`: splits the dotted path and walks it starting
from the whole argument bag.  Absence is `none`; the function never fails
with an error. -/
def getValueByPath (args : Args) (path : String) : Option Value :=
  walkPath (.vMap args) (goSplit path '.')

/-! ## Built-in formatters -/

/-- Inserts the thousands separators into the integer-part characters,
given the total length and the current index. -/
def sepCoreAux (total : Nat) : List Char → Nat → List Char
  | [], _ => []
  | c :: rest, i =>
    if i ≠ 0 && (total - i) % 3 = 0 then ',' :: c :: sepCoreAux total rest (i+1)
    else c :: sepCoreAux total rest (i+1)

/-- Model of `addThousandsSep`. -/
def addThousandsSep (s : String) : String :=
  let (neg, s1) :=
    if goHasPrefix s "-" then (true, String.mk (s.toList.drop 1)) else (false, s)
  let parts := goSplit s1 '.'
  let intPart := (parts.headD "").toList
  let buf := String.mk (sepCoreAux intPart.length intPart 0)
  let withFrac :=
    match parts with
    | _ :: second :: _ => buf ++ "." ++ second
    | _ => buf
  if neg then "-" ++ withFrac else withFrac

/-- Model of the output of `fmt.Sprintf("%." + strconv.Itoa(p) + "f", f)`:
fixed-point formatting for a non-negative precision; for a negative `p` the
format string is malformed (`%.-Nf`), so `fmt` emits a bad-verb diagnostic
for `-` followed by the remaining digits and `f` as literal text. -/
def goSprintfDotF (p : Int) (f : Dec) : String :=
  if 0 ≤ p then fixedFmt f p.toNat
  else "%!-(float64=" ++ goFloatStr f ++ ")" ++
       String.mk ((toString p).toList.drop 1) ++ "f"

/-- Model of `formatNumber`: coerces numeric values or numeric-looking
strings (thousands separators stripped) to a float, parses the precision
with `strconv.Atoi` (default 0), formats at that precision and inserts
thousands separators. -/
def formatNumber (v : Value) (precision : String) : Except String String :=
  let fOf : Except String Dec :=
    match v with
    | .vInt n => .ok (Dec.ofInt n)
    | .vFloat d => .ok d
    | .vStr s =>
      let n1 := removeChar (goTrim s) ','
      match parseDecimal n1 with
      | some d => .ok d
      | none => .error ("number formatter: cannot parse " ++ quoteGo n1)
    | other =>
      .error ("number formatter requires numeric or numeric-string type, got "
              ++ goTypeName other)
  match fOf with
  | .error e => .error e
  | .ok f =>
    let pOf : Except String Int :=
      if precision = "" then .ok 0
      else
        match goAtoi precision with
        | some pi => .ok pi
        | none => .error ("number formatter: invalid precision " ++ quoteGo precision)
    match pOf with
    | .error e => .error e
    | .ok p => .ok (addThousandsSep (goSprintfDotF p f))

/-- Model of `formatCurrency`: like `formatNumber` with two fixed decimals,
prefixed by the symbol (`arg` when non-empty, else `$`); string inputs get
currency symbols stripped before parsing. -/
def formatCurrency (v : Value) (arg : String) : Except String String :=
  let symbol := if arg = "" then "$" else arg
  let fOf : Except String Dec :=
    match v with
    | .vInt n => .ok (Dec.ofInt n)
    | .vFloat d => .ok d
    | .vStr s =>
      let n1 := goTrim s
      let n2 := goTrimPrefix n1 "$"
      let n3 := goTrimPrefix n2 "¥"
      let n4 := goTrimPrefix n3 "€"
      let n5 := goTrimPrefix n4 "£"
      let n6 := goTrimPrefix n5 symbol
      let n7 := removeChar n6 ','
      match parseDecimal n7 with
      | some d => .ok d
      | none => .error ("currency formatter: cannot parse number from " ++ quoteGo s)
    | other =>
      .error ("currency formatter requires numeric or numeric-string type, got "
              ++ goTypeName other)
  match fOf with
  | .error e => .error e
  | .ok f => .ok (symbol ++ addThousandsSep (fixedFmt f 2))

/-! ## Date formatting

The embedded value universe contains no `time.Time` values, so only the
string case of `formatDate` (an RFC-3339 parse followed by layout
formatting) is reachable; the layout scanner covers the numeric reference
tokens used by this repository. -/

/-- Parsed wall-clock components of an RFC-3339 timestamp. -/
structure GoTime where
  year : Nat
  month : Nat
  day : Nat
  hour : Nat
  minute : Nat
  second : Nat
deriving DecidableEq, Repr

/-- Reads exactly `n` digits. -/
def readDigits (n : Nat) (cs : List Char) : Option (Nat × List Char) :=
  let ds := cs.take n
  if ds.length = n && ds.all Char.isDigit then some (digitsToNat ds, cs.drop n)
  else none

/-- Requires a literal character. -/
def expectChar (c : Char) : List Char → Option (List Char)
  | c' :: rest => if c' = c then some rest else none
  | [] => none

/-- Checks the RFC-3339 zone suffix: `Z` or `±HH:MM`. -/
def zoneValid (cs : List Char) : Bool :=
  match cs with
  | [] => false
  | sgn :: z =>
    if sgn = 'Z' then z.isEmpty
    else if sgn = '+' || sgn = '-' then
      match readDigits 2 z with
      | none => false
      | some (zh, z2) =>
        match expectChar ':' z2 with
        | none => false
        | some z3 =>
          match readDigits 2 z3 with
          | none => false
          | some (zm, z4) => z4.isEmpty && Nat.ble zh 23 && Nat.ble zm 59
    else false

/-- Skips an optional fractional-second suffix. -/
def skipFraction (cs : List Char) : List Char :=
  match cs with
  | c :: rest => if c = '.' then rest.dropWhile Char.isDigit else cs
  | [] => cs

/-- Model of `time.Parse(time.RFC3339, s)` returning the parsed wall-clock
components: `YYYY-MM-DDTHH:MM:SS`, an optional fraction, and a `Z` or
`±HH:MM` zone. -/
def parseRFC3339 (s : String) : Option GoTime :=
  match readDigits 4 s.toList with
  | none => none
  | some (y, cs1) =>
  match expectChar '-' cs1 with
  | none => none
  | some cs2 =>
  match readDigits 2 cs2 with
  | none => none
  | some (mo, cs3) =>
  match expectChar '-' cs3 with
  | none => none
  | some cs4 =>
  match readDigits 2 cs4 with
  | none => none
  | some (d, cs5) =>
  match expectChar 'T' cs5 with
  | none => none
  | some cs6 =>
  match readDigits 2 cs6 with
  | none => none
  | some (h, cs7) =>
  match expectChar ':' cs7 with
  | none => none
  | some cs8 =>
  match readDigits 2 cs8 with
  | none => none
  | some (mi, cs9) =>
  match expectChar ':' cs9 with
  | none => none
  | some cs10 =>
  match readDigits 2 cs10 with
  | none => none
  | some (sec, cs11) =>
    let ok := zoneValid (skipFraction cs11) &&
      Nat.ble 1 mo && Nat.ble mo 12 && Nat.ble 1 d && Nat.ble d 31 &&
      Nat.ble h 23 && Nat.ble mi 59 && Nat.ble sec 59
    if ok then some ⟨y, mo, d, h, mi, sec⟩ else none

/-- Zero-pads a number to two digits. -/
def pad2 (n : Nat) : String := padLeftZeros (toString n) 2

/-- Zero-pads a number to four digits. -/
def pad4 (n : Nat) : String := padLeftZeros (toString n) 4

/-- Scans a Go time layout, substituting the numeric reference tokens
(`2006`, `01`, `02`, `15`, `04`, `05`) and copying everything else. -/
def goTimeFormatAux (t : GoTime) : List Char → String
  | [] => ""
  | '2' :: '0' :: '0' :: '6' :: rest => pad4 t.year ++ goTimeFormatAux t rest
  | '0' :: '1' :: rest => pad2 t.month ++ goTimeFormatAux t rest
  | '0' :: '2' :: rest => pad2 t.day ++ goTimeFormatAux t rest
  | '1' :: '5' :: rest => pad2 t.hour ++ goTimeFormatAux t rest
  | '0' :: '4' :: rest => pad2 t.minute ++ goTimeFormatAux t rest
  | '0' :: '5' :: rest => pad2 t.second ++ goTimeFormatAux t rest
  | c :: rest => String.mk [c] ++ goTimeFormatAux t rest

/-- Model of `time.Time.Format` for the numeric layouts this repository uses. -/
def goTimeFormat (t : GoTime) (layout : String) : String :=
  goTimeFormatAux t layout.toList

/-- Model of `formatDate`, restricted to the embedded value universe (which
has no `time.Time` variant): a string is parsed as RFC 3339 and re-formatted
with the layout (default `2006-01-02`); any other value is a type error. -/
def formatDate (v : Value) (layout0 : String) : Except String String :=
  let layout := if layout0 = "" then "2006-01-02" else layout0
  match v with
  | .vStr s =>
    match parseRFC3339 s with
    | some t => .ok (goTimeFormat t layout)
    | none =>
      .error ("parsing time " ++ quoteGo s ++ " as RFC3339: cannot parse")
  | other => .error ("not a time: " ++ sprintValue other)

/-! ## Formatter registry -/

/-- Model of `applyRegisteredFormatter` over the registry as populated by
`init()`: the six built-in formatters (`upper`, `lower`, `title`, `number`,
`currency`, `date`); any other name is an unknown-formatter error. -/
def applyRegisteredFormatter (v : Value) (name arg : String) : Except String Value :=
  match name with
  | "upper" => .ok (.vStr (goToUpper (sprintValue v)))
  | "lower" => .ok (.vStr (goToLower (sprintValue v)))
  | "title" => .ok (.vStr (goTitle (sprintValue v)))
  | "number" =>
    match formatNumber v arg with
    | .ok s => .ok (.vStr s)
    | .error e => .error e
  | "currency" =>
    match formatCurrency v arg with
    | .ok s => .ok (.vStr s)
    | .error e => .error e
  | "date" =>
    match formatDate v arg with
    | .ok s => .ok (.vStr s)
    | .error e => .error e
  | _ => .error ("unknown formatter: " ++ name)

/-! ## Conditional comparison -/

/-- Model of `compareNumbers` with the left operand already coerced to a
float: parses the test value with `strconv.ParseFloat` and applies the
operator. -/
def compareNumbers (lv : Dec) (op : String) (test : String) : Except String Bool :=
  match parseDecimal test with
  | none =>
    .error ("strconv.ParseFloat: parsing " ++ quoteGo test ++ ": invalid syntax")
  | some rv =>
    match op with
    | "eq" => .ok (Dec.deq lv rv)
    | "gt" => .ok (Dec.dlt rv lv)
    | "lt" => .ok (Dec.dlt lv rv)
    | _ => .error ("unknown op: " ++ op)

/-- Model of `compareValues`: numeric values compare through
`compareNumbers`; strings support only `eq` (exact equality); every other
value type is unsupported. -/
def compareValues (v : Value) (op : String) (test : String) : Except String Bool :=
  match v with
  | .vInt n => compareNumbers (Dec.ofInt n) op test
  | .vFloat d => compareNumbers d op test
  | .vStr s =>
    match op with
    | "eq" => .ok (s == test)
    | _ => .error ("unsupported string op: " ++ op)
  | other => .error ("unsupported type for compare: " ++ goTypeName other)

/-! ## AST -/

/-- Embedding of the `Formatter` struct: one call in the chain. -/
structure Formatter where
  name : String
  arg : String
deriving DecidableEq, Repr

/-- Embedding of the `Conditional` struct. -/
structure Conditional where
  op : String
  testValue : String
  trueExpr : String
  falseExpr : String
deriving DecidableEq, Repr

/-- Embedding of the `PlaceholderNode` struct. -/
structure PlaceholderNode where
  path : String
  formatters : List Formatter
  cond : Option Conditional
deriving DecidableEq, Repr

/-- Embedding of the `Node` interface: the two variants implementing it. -/
inductive Node where
  | text (s : String)
  | placeholder (p : PlaceholderNode)
deriving DecidableEq, Repr

/-- Embedding of `TemplateAST`: the ordered node sequence. -/
abbrev TemplateAST := List Node

/-! ## Placeholder expression parser -/

/-- Model of `parseFormatterSegment`: splits `name:arg` at the first colon,
trimming both parts; the argument defaults to empty. -/
def parseFormatterSegment (seg : String) : String × String :=
  match splitFirst seg ':' with
  | none => (goTrim seg, "")
  | some (a, b) => (goTrim a, goTrim b)

/-- Model of `parseConditional`: splits `op:test?trueExpr:falseExpr` once on
`?`, then each side once on `:`, trimming all four parts. -/
def parseConditional (expr : String) : Except String Conditional :=
  match splitFirst expr '?' with
  | none => .error ("invalid conditional: " ++ expr)
  | some (condPart, trueFalse) =>
    match splitFirst trueFalse ':' with
    | none => .error ("invalid conditional: " ++ expr)
    | some (t, f) =>
      match splitFirst condPart ':' with
      | none => .error ("invalid condition: " ++ condPart)
      | some (op, test) =>
        .ok ⟨goTrim op, goTrim test, goTrim t, goTrim f⟩

/-- Processes the `|`-segments after the path: a segment containing `?`
is parsed as a conditional (overwriting any earlier one), any other as a
formatter call appended to the chain; empty segments and empty formatter
names are errors. -/
def phSegments : List String → PlaceholderNode → Except String PlaceholderNode
  | [], ph => .ok ph
  | s :: rest, ph =>
    let seg := goTrim s
    if seg = "" then .error "empty formatter segment"
    else if goContains seg '?' then
      match parseConditional seg with
      | .error e => .error e
      | .ok c => phSegments rest { ph with cond := some c }
    else
      let (name, arg) := parseFormatterSegment seg
      if name = "" then .error ("empty formatter name in segment " ++ quoteGo seg)
      else phSegments rest { ph with formatters := ph.formatters ++ [⟨name, arg⟩] }

/-- Model of `parsePlaceholder`: trims the inner expression, rejects the
empty one, splits naively on every `|`, takes the trimmed first part as the
path and processes the remaining segments. -/
def parsePlaceholder (expr0 : String) : Except String PlaceholderNode :=
  let expr := goTrim expr0
  if expr = "" then .error "empty placeholder expression"
  else
    match goSplit expr '|' with
    | [] => .error "empty placeholder"
    | p0 :: rest => phSegments rest ⟨goTrim p0, [], none⟩

/-! ## Template parser -/

/-- Brace scan of `ParseTemplate`: given the characters after an opening
brace and the current depth, returns the balanced inner span (excluding the
closing brace) and the remainder, or `none` when the depth never returns
to zero. -/
def findClose : List Char → Nat → Option (List Char × List Char)
  | [], _ => none
  | c :: rest, depth =>
    if c = '\x7b' then
      match findClose rest (depth + 1) with
      | some (inner, r) => some (c :: inner, r)
      | none => none
    else if c = '\x7d' then
      if depth = 1 then some ([], rest)
      else
        match findClose rest (depth - 1) with
        | some (inner, r) => some (c :: inner, r)
        | none => none
    else
      match findClose rest depth with
      | some (inner, r) => some (c :: inner, r)
      | none => none

/-- Main scan loop of `ParseTemplate`, with an explicit structural bound on
the remaining input (any bound at least the input length gives the same
result).  Ordinary characters accumulate in the text buffer; at an opening
brace the buffer is flushed, the balanced span is sought, and the span
either becomes a `PlaceholderNode`, or (on a placeholder syntax error) is
re-emitted verbatim into the buffer, or (when unmatched) the brace alone is
treated as a literal character. -/
def parseGoN : Nat → List Char → List Char → List Node
  | _, [], buf => if buf.isEmpty then [] else [.text (String.mk buf)]
  | 0, _ :: _, _ => []
  | n+1, c :: rest, buf =>
    if c = '\x7b' then
      let flushed : List Node := if buf.isEmpty then [] else [.text (String.mk buf)]
      match findClose rest 1 with
      | none => flushed ++ parseGoN n rest ['\x7b']
      | some (inner, after) =>
        match parsePlaceholder (String.mk inner) with
        | .error _ => flushed ++ parseGoN n after ('\x7b' :: inner ++ ['\x7d'])
        | .ok ph => flushed ++ [.placeholder ph] ++ parseGoN n after []
    else parseGoN n rest (buf ++ [c])

/-- Model of `ParseTemplate`: total, never fails (the Go function always
returns a nil error); parses the template into its AST. -/
def ParseTemplate (tpl : String) : TemplateAST :=
  parseGoN tpl.toList.length tpl.toList []

/-! ## AST cache and evaluator

The Go code evaluates through a process-global AST cache that the
conditional branches' recursive `RenderTemplate` calls also consult, so the
cache is threaded explicitly through evaluation, and the unbounded Go
recursion (a conditional branch re-enters the top-level render) is fuelled:
`renderT` with any sufficiently large fuel computes the Go result. -/

/-- The AST cache: raw template string to parsed AST. -/
abbrev Cache := List (String × TemplateAST)

/-- Cache lookup by exact template string. -/
def lookupC : Cache → String → Option TemplateAST
  | [], _ => none
  | (k, a) :: rest, s => if k = s then some a else lookupC rest s

/-- Cache insert (the Go map assignment). -/
def insertC (c : Cache) (s : String) (a : TemplateAST) : Cache :=
  (s, a) :: c

/-- Chained formatter application of `PlaceholderNode.Eval`: feeds the value
through each call in order, aborting on the first error. -/
def applyFormatters : List Formatter → Value → Except String Value
  | [], v => .ok v
  | f :: fs, v =>
    match applyRegisteredFormatter v f.name f.arg with
    | .error e => .error e
    | .ok v2 => applyFormatters fs v2

/-- Model of `Node.Eval`, parameterized by the recursive render entry point
used for conditional branches.  A text node yields its literal; a
placeholder resolves its path (not-found aborts), applies the formatter
chain, then either compares and re-renders one branch with the original
argument bag, or stringifies the value. -/
def evalNodeGo (render : Cache → String → Args → Except String String × Cache)
    (c : Cache) (args : Args) : Node → Except String String × Cache
  | .text s => (.ok s, c)
  | .placeholder p =>
    match getValueByPath args p.path with
    | none => (.error ("value not found: " ++ p.path), c)
    | some v =>
      match applyFormatters p.formatters v with
      | .error e => (.error e, c)
      | .ok v2 =>
        match p.cond with
        | some cond =>
          match compareValues v2 cond.op cond.testValue with
          | .error e => (.error e, c)
          | .ok b => render c (if b then cond.trueExpr else cond.falseExpr) args
        | none => (.ok (sprintValue v2), c)

/-- Model of `TemplateAST.Eval`: concatenates the node results in order,
aborting on the first node error. -/
def evalASTGo (render : Cache → String → Args → Except String String × Cache)
    (c : Cache) (args : Args) : TemplateAST → Except String String × Cache
  | [] => (.ok "", c)
  | n :: rest =>
    match evalNodeGo render c args n with
    | (.ok s, c2) =>
      match evalASTGo render c2 args rest with
      | (.ok s2, c3) => (.ok (s ++ s2), c3)
      | e => e
    | e => e

/-- Model of `RenderTemplate` with the global AST cache made explicit and
the recursion fuelled: a cache hit skips parsing, a miss parses and stores
the AST (never the rendered string), then the AST is evaluated. -/
def renderT : Nat → Cache → String → Args → Except String String × Cache
  | 0, c, _, _ => (.error "render recursion limit exceeded", c)
  | fuel+1, c, tpl, args =>
    match lookupC c tpl with
    | some ast => evalASTGo (renderT fuel) c args ast
    | none =>
      let ast := ParseTemplate tpl
      evalASTGo (renderT fuel) (insertC c tpl ast) args ast

/-! ## Validator -/

/-- Brace-balance scan of `checkBraces`: tracks the depth and the position
of the first unmatched opening brace. -/
def checkBracesAux : List Char → Nat → Nat → Option Nat → Except String Unit
  | [], _, depth, firstOpen =>
    match firstOpen with
    | some fo => if depth ≠ 0 then .error ("unclosed placeholder starting at position " ++ toString fo) else .ok ()
    | none => .ok ()
  | c :: rest, i, depth, firstOpen =>
    if c = '\x7b' then
      let fo := if depth = 0 then some i else firstOpen
      checkBracesAux rest (i+1) (depth+1) fo
    else if c = '\x7d' then
      if depth = 0 then .error ("extra closing '\x7d' at position " ++ toString i)
      else checkBracesAux rest (i+1) (depth-1) firstOpen
    else checkBracesAux rest (i+1) depth firstOpen

/-- Model of `checkBraces`. -/
def checkBraces (tpl : String) : Except String Unit :=
  checkBracesAux tpl.toList 0 0 none

/-- The formatter names registered by `init()`. -/
def registeredNames : List String :=
  ["upper", "lower", "title", "number", "currency", "date"]

/-- Checks each formatter call of the chain: non-empty registered name, and
an integer precision argument for `number`. -/
def validateFormatters : List Formatter → Except String Unit
  | [] => .ok ()
  | f :: fs =>
    let name := goTrim f.name
    if name = "" then .error "empty formatter name"
    else if !(registeredNames.contains name) then
      .error ("unknown formatter: " ++ name)
    else if name = "number" && f.arg ≠ "" && (goAtoi f.arg).isNone then
      .error ("invalid precision for number formatter: " ++ quoteGo f.arg)
    else validateFormatters fs

/-- Per-node checks of `ValidateTemplate`: non-empty path, registered
formatter names, integer precision for `number`, legal conditional operator
and non-empty branches. -/
def validateNode : Node → Except String Unit
  | .text _ => .ok ()
  | .placeholder ph =>
    if goTrim ph.path = "" then .error "placeholder has empty path"
    else
      match validateFormatters ph.formatters with
      | .error e => .error e
      | .ok () =>
        match ph.cond with
        | none => .ok ()
        | some cond =>
          if cond.op = "eq" || cond.op = "gt" || cond.op = "lt" then
            if goTrim cond.trueExpr = "" || goTrim cond.falseExpr = "" then
              .error "invalid conditional expression: true/false branch must not be empty"
            else .ok ()
          else .error ("unknown conditional operator: " ++ cond.op)

/-- Walks the AST, validating every node. -/
def validateAll : TemplateAST → Except String Unit
  | [] => .ok ()
  | n :: rest =>
    match validateNode n with
    | .error e => .error e
    | .ok () => validateAll rest

/-- Model of `ValidateTemplate`: brace balance first, then a lenient parse,
then the per-node checks. -/
def ValidateTemplate (tpl : String) : Except String Unit :=
  match checkBraces tpl with
  | .error e => .error e
  | .ok () => validateAll (ParseTemplate tpl)

/-! ## Bundle and Locale (`i18n.go`) -/

/-- Embedding of the message store of a `Bundle`: language to key to raw
message text. -/
structure Bundle where
  messages : List (String × List (String × String))

/-- Embedding of `Locale`: a possibly-nil bundle pointer plus the language
fallback chain. -/
structure Locale where
  bundle : Option Bundle
  langs : List String

/-- Exact-key lookup in a string association list. -/
def lookupStr (entries : List (String × String)) (k : String) : Option String :=
  match entries with
  | [] => none
  | (k2, v) :: rest => if k2 = k then some v else lookupStr rest k

/-- Lookup of a language's message map in the store. -/
def lookupLang (store : List (String × List (String × String))) (lang : String) :
    Option (List (String × String)) :=
  match store with
  | [] => none
  | (k2, v) :: rest => if k2 = lang then some v else lookupLang rest lang

/-- The message a bundle holds for a language/key pair, when any. -/
def msgLookup (b : Bundle) (lang key : String) : Option String :=
  match lookupLang b.messages lang with
  | some msgs => lookupStr msgs key
  | none => none

/-- Fallback-chain walk of `Locale.T`: the first language whose message map
contains the key wins; its text is rendered, a render failure degrades to
the raw text; when no language has the key, the key itself is returned. -/
def localeTGo (fuel : Nat) (c : Cache) (b : Bundle) (key : String) (args : Args) :
    List String → String
  | [] => key
  | lang :: rest =>
    match msgLookup b lang key with
    | some text =>
      match (renderT fuel c text args).1 with
      | .ok res => res
      | .error _ => text
    | none => localeTGo fuel c b key args rest

/-- Model of `Locale.T`: a nil bundle returns the key unchanged, otherwise
the fallback chain is walked. -/
def localeT (fuel : Nat) (c : Cache) (l : Locale) (key : String) (args : Args) : String :=
  match l.bundle with
  | none => key
  | some b => localeTGo fuel c b key args l.langs

/-! ## General lemmas about the embedding -/

/-- String concatenation is concatenation of the character data. -/
theorem strMk_append (a b : List Char) :
    String.mk a ++ String.mk b = String.mk (a ++ b) := rfl

/-- String concatenation is associative. -/
theorem strAppend_assoc (a b c : String) : a ++ b ++ c = a ++ (b ++ c) := by
  cases a; cases b; cases c
  exact congrArg String.mk (List.append_assoc ..)

/-- The empty string is right-neutral for concatenation. -/
theorem strAppend_empty (a : String) : a ++ "" = a := by
  cases a
  exact congrArg String.mk (List.append_nil _)

/-- A string equals the `String.mk` of its character list. -/
theorem strMk_toList (s : String) : String.mk s.toList = s := rfl

/-- The formatter chain is strictly sequential: evaluating a concatenated
chain feeds the first part's output into the second part. -/
theorem applyFormatters_append (fs1 fs2 : List Formatter) (v : Value) :
    applyFormatters (fs1 ++ fs2) v =
      match applyFormatters fs1 v with
      | .ok v2 => applyFormatters fs2 v2
      | .error e => .error e := by
  induction fs1 generalizing v with
  | nil => rfl
  | cons f fs ih =>
    show applyFormatters (f :: (fs ++ fs2)) v = _
    simp only [applyFormatters]
    cases applyRegisteredFormatter v f.name f.arg with
    | error e => rfl
    | ok v2 => exact ih v2

/-- A node error aborts AST evaluation with that error and no output. -/
theorem evalASTGo_error_abort (render : Cache → String → Args → Except String String × Cache)
    (c : Cache) (args : Args) (n : Node) (rest : TemplateAST) (e : String) (c2 : Cache)
    (h : evalNodeGo render c args n = (.error e, c2)) :
    evalASTGo render c args (n :: rest) = (.error e, c2) := by
  simp only [evalASTGo, h]

/-- A placeholder whose path does not resolve evaluates to the
value-not-found error, leaving the cache untouched. -/
theorem evalNodeGo_value_not_found
    (render : Cache → String → Args → Except String String × Cache)
    (c : Cache) (args : Args) (p : PlaceholderNode)
    (h : getValueByPath args p.path = none) :
    evalNodeGo render c args (.placeholder p) =
      (.error ("value not found: " ++ p.path), c) := by
  simp only [evalNodeGo, h]

/-! ## C1 -/

/-- C1: when a `PlaceholderNode` carries a conditional, evaluation compares
the post-formatter value against the test value and renders exactly one
branch (`trueExpr` when the comparison holds, `falseExpr` otherwise) through
the top-level render entry point with the same original argument bag, so the
non-chosen branch is never parsed or evaluated; concretely,
rendering `{count|eq:0?No items:{count} items}` yields `No items` for
`count = 0` and `5 items` for `count = 5`. -/
theorem c1_conditional_eval :
    (∀ (fuel : Nat) (c : Cache) (args : Args) (p : PlaceholderNode)
       (cond : Conditional) (v v2 : Value) (b : Bool),
        p.cond = some cond →
        getValueByPath args p.path = some v →
        applyFormatters p.formatters v = .ok v2 →
        compareValues v2 cond.op cond.testValue = .ok b →
        evalNodeGo (renderT fuel) c args (.placeholder p) =
          renderT fuel c (if b then cond.trueExpr else cond.falseExpr) args) ∧
    (renderT 2 [] "\x7bcount|eq:0?No items:\x7bcount\x7d items\x7d"
        [("count", .vInt 0)]).1 = .ok "No items" ∧
    (renderT 2 [] "\x7bcount|eq:0?No items:\x7bcount\x7d items\x7d"
        [("count", .vInt 5)]).1 = .ok "5 items" := by
  refine ⟨?_, by rfl, by rfl⟩
  intro fuel c args p cond v v2 b hcond hval hfmt hcmp
  simp only [evalNodeGo, hval, hfmt, hcond, hcmp]

/-- Witness for C1 at a concrete conditional placeholder. -/
theorem c1_conditional_eval_witness :
    evalNodeGo (renderT 1) [] [("count", Value.vInt 0)]
      (.placeholder ⟨"count", [], some ⟨"eq", "0", "No items", "some items"⟩⟩) =
      renderT 1 [] (if true then "No items" else "some items")
        [("count", Value.vInt 0)] :=
  c1_conditional_eval.1 1 [] [("count", Value.vInt 0)]
    ⟨"count", [], some ⟨"eq", "0", "No items", "some items"⟩⟩
    ⟨"eq", "0", "No items", "some items"⟩ (.vInt 0) (.vInt 0) true
    rfl rfl rfl rfl

/-! ## C3 -/

/-- C3: formatters apply strictly left to right, each consuming the previous
formatter's output (splitting the chain anywhere shows the right part
consumes the left part's result), and concretely
`{p|number:2|currency:¥}` with `p = 12345.678` renders `¥12,345.68`. -/
theorem c3_formatter_chain :
    (∀ (fs1 fs2 : List Formatter) (v : Value),
        applyFormatters (fs1 ++ fs2) v =
          match applyFormatters fs1 v with
          | .ok v2 => applyFormatters fs2 v2
          | .error e => .error e) ∧
    (renderT 1 [] "\x7bp|number:2|currency:¥\x7d"
        [("p", .vFloat ⟨12345678, 3⟩)]).1 = .ok "¥12,345.68" :=
  ⟨applyFormatters_append, by rfl⟩

/-- Witness for C3 at a concrete two-formatter chain. -/
theorem c3_formatter_chain_witness :
    applyFormatters ([⟨"number", "2"⟩] ++ [⟨"currency", "¥"⟩])
        (.vFloat ⟨12345678, 3⟩) =
      match applyFormatters [⟨"number", "2"⟩] (Value.vFloat ⟨12345678, 3⟩) with
      | .ok v2 => applyFormatters [⟨"currency", "¥"⟩] v2
      | .error e => .error e :=
  c3_formatter_chain.1 [⟨"number", "2"⟩] [⟨"currency", "¥"⟩] (.vFloat ⟨12345678, 3⟩)

/-! ## C4 -/

/-- C4: a placeholder whose path does not resolve against the argument bag
fails with the value-not-found error; the first failing node aborts the whole
AST evaluation with no partial output; concretely `{user.missing}` with
`user = \x7b\x7d` fails with `value not found: user.missing`. -/
theorem c4_value_not_found :
    (∀ (render : Cache → String → Args → Except String String × Cache)
       (c : Cache) (args : Args) (p : PlaceholderNode),
        getValueByPath args p.path = none →
        evalNodeGo render c args (.placeholder p) =
          (.error ("value not found: " ++ p.path), c)) ∧
    (∀ (render : Cache → String → Args → Except String String × Cache)
       (c : Cache) (args : Args) (n : Node) (rest : TemplateAST) (e : String)
       (c2 : Cache),
        evalNodeGo render c args n = (.error e, c2) →
        evalASTGo render c args (n :: rest) = (.error e, c2)) ∧
    (renderT 1 [] "\x7buser.missing\x7d" [("user", .vMap [])]).1 =
      .error "value not found: user.missing" :=
  ⟨fun render c args p h => evalNodeGo_value_not_found render c args p h,
   fun render c args n rest e c2 h => evalASTGo_error_abort render c args n rest e c2 h,
   by rfl⟩

/-- Witness for C4 at a concrete unresolvable placeholder. -/
theorem c4_value_not_found_witness :
    evalNodeGo (renderT 1) [] [("user", Value.vMap [])]
      (.placeholder ⟨"user.missing", [], none⟩) =
      (.error ("value not found: " ++ "user.missing"), []) :=
  c4_value_not_found.1 (renderT 1) [] [("user", Value.vMap [])]
    ⟨"user.missing", [], none⟩ rfl

/-! ## C5 -/

/-- C5: path resolution is total (absence is `none`, never an error): a
string-keyed map is looked up by exact key (so a case-mismatched key fails),
a record value is looked up case-insensitively through at most one level of
pointer indirection (two levels fail), any other value resolves to
not-found, and `user.name` resolves against a record whose field is named
`Name`. -/
theorem c5_path_resolution :
    (∀ (entries : List (String × Value)) (seg : String),
        stepSeg (.vMap entries) seg = lookupAssoc entries seg) ∧
    (∀ (v : Value), lookupAssoc [("Name", v)] "name" = none) ∧
    (∀ (fields : List (String × Value)) (seg : String),
        stepSeg (.vRec fields) seg = lookupFold fields seg ∧
        stepSeg (.vPtr (.vRec fields)) seg = lookupFold fields seg) ∧
    (∀ (name : String) (v : Value) (seg : String),
        eqFold name seg = true → lookupFold [(name, v)] seg = some v) ∧
    (∀ (v : Value) (seg : String), stepSeg (.vPtr (.vPtr v)) seg = none) ∧
    (∀ (n : Int) (seg : String), stepSeg (.vInt n) seg = none) ∧
    (getValueByPath [("user", .vRec [("Name", .vStr "Tom")])] "user.name" =
      some (.vStr "Tom")) := by
  refine ⟨fun entries seg => rfl, fun v => rfl,
          fun fields seg => ⟨rfl, rfl⟩, ?_,
          fun v seg => rfl, fun n seg => rfl, rfl⟩
  intro name v seg h
  simp only [lookupFold, List.filter, h]

/-- Witness for C5 at a concrete case-insensitive field lookup. -/
theorem c5_path_resolution_witness :
    lookupFold [("Name", Value.vStr "Tom")] "name" = some (Value.vStr "Tom") :=
  c5_path_resolution.2.2.2.1 "Name" (Value.vStr "Tom") "name" rfl

/-! ## C2 -/

/-- Without a closing brace in the remaining input, the brace scan never
closes. -/
theorem findClose_none (cs : List Char) (h : '\x7d' ∉ cs) :
    ∀ d, findClose cs d = none := by
  induction cs with
  | nil => intro d; rfl
  | cons c rest ih =>
    intro d
    have hc : c ≠ '\x7d' := fun he => h (he ▸ List.mem_cons_self ..)
    have hr : '\x7d' ∉ rest := fun hm => h (List.mem_cons_of_mem _ hm)
    by_cases hb : c = '\x7b'
    · simp [findClose, hb, ih hr]
    · simp [findClose, hb, hc, ih hr]

/-- Evaluating the flushed text buffer yields the buffered characters. -/
theorem eval_flush (render : Cache → String → Args → Except String String × Cache)
    (c : Cache) (args : Args) (buf : List Char) :
    evalASTGo render c args
      (if buf.isEmpty then [] else [.text (String.mk buf)]) =
      (.ok (String.mk buf), c) := by
  cases buf with
  | nil => rfl
  | cons c0 rest =>
    simp only [List.isEmpty, Bool.false_eq_true, if_false, evalASTGo, evalNodeGo,
      strAppend_empty]

/-- AST evaluation splits over list concatenation: when the first part
succeeds, the second part runs in the cache state the first part produced
and the outputs concatenate. -/
theorem evalASTGo_append_ok (render : Cache → String → Args → Except String String × Cache)
    (c : Cache) (args : Args) (l1 l2 : TemplateAST) (s1 : String) (c2 : Cache)
    (h : evalASTGo render c args l1 = (.ok s1, c2)) :
    evalASTGo render c args (l1 ++ l2) =
      match evalASTGo render c2 args l2 with
      | (.ok s2, c3) => (.ok (s1 ++ s2), c3)
      | e => e := by
  induction l1 generalizing c s1 with
  | nil =>
    simp only [evalASTGo, Prod.mk.injEq, Except.ok.injEq] at h
    obtain ⟨h1, h2⟩ := h
    subst h1; subst h2
    show evalASTGo render c args l2 = _
    rcases h2 : evalASTGo render c args l2 with ⟨v2, c3⟩
    cases v2 with
    | ok s2 => show (_, _) = (_, _); rw [Prod.mk.injEq]; exact ⟨rfl, rfl⟩
    | error e => rfl
  | cons n rest ih =>
    rcases h1 : evalNodeGo render c args n with ⟨v1, cmid⟩
    cases v1 with
    | error e =>
      rw [show evalASTGo render c args (n :: rest) = (.error e, cmid) from by
        simp only [evalASTGo, h1]] at h
      exact absurd h (by simp)
    | ok s =>
      simp only [evalASTGo, h1] at h ⊢
      rcases h2 : evalASTGo render cmid args rest with ⟨v2, cmid2⟩
      rw [h2] at h
      cases v2 with
      | error e => exact absurd h (by simp)
      | ok s2 =>
        simp only [Prod.mk.injEq, Except.ok.injEq] at h
        obtain ⟨hs, hc⟩ := h
        subst hs; subst hc
        rw [show rest.append l2 = rest ++ l2 from rfl, ih cmid s2 h2]
        rcases h3 : evalASTGo render cmid2 args l2 with ⟨v3, c4⟩
        cases v3 with
        | error e => rfl
        | ok s3 => simp [strAppend_assoc]

/-- Scanning input with no closing brace produces only literal text whose
evaluation reproduces the buffered input verbatim: opening braces are
treated as ordinary characters. -/
theorem parseGoN_no_close (n : Nat) :
    ∀ (cs buf : List Char), cs.length ≤ n → '\x7d' ∉ cs →
    ∀ (render : Cache → String → Args → Except String String × Cache)
      (c : Cache) (args : Args),
      evalASTGo render c args (parseGoN n cs buf) =
        (.ok (String.mk (buf ++ cs)), c) := by
  induction n with
  | zero =>
    intro cs buf hle _ render c args
    have hnil : cs = [] := List.eq_nil_of_length_eq_zero (Nat.le_zero.mp hle)
    subst hnil
    simp only [parseGoN, List.append_nil]
    exact eval_flush render c args buf
  | succ n ih =>
    intro cs buf hle hmem render c args
    cases cs with
    | nil =>
      simp only [parseGoN, List.append_nil]
      exact eval_flush render c args buf
    | cons c0 rest =>
      have hc : c0 ≠ '\x7d' := fun he => hmem (he ▸ List.mem_cons_self ..)
      have hr : '\x7d' ∉ rest := fun hm => hmem (List.mem_cons_of_mem _ hm)
      have hlen : rest.length ≤ n := by simpa using hle
      by_cases hb : c0 = '\x7b'
      · subst hb
        simp only [parseGoN, if_true, findClose_none rest hr 1]
        rw [evalASTGo_append_ok render c args _ (parseGoN n rest ['\x7b'])
            (String.mk buf) c (eval_flush render c args buf),
          ih rest ['\x7b'] hlen hr render c args]
        simp only [strMk_append]
        rfl
      · simp only [parseGoN, if_neg hb]
        rw [ih rest (buf ++ [c0]) hlen hr render c args,
          List.append_assoc, List.singleton_append]

/-- C2: template parsing is total in the Go source (the error result is
always nil) and degrades gracefully: an opening brace with no matching
closing brace is treated as a literal character, so any template containing
no closing brace at all — `{unclosed}` without its `}` in particular —
renders to itself unchanged. -/
theorem c2_tolerant_parse :
    (∀ (s : String) (args : Args) (fuel : Nat), '\x7d' ∉ s.toList →
        (renderT (fuel+1) [] s args).1 = .ok s) ∧
    (renderT 1 [] "\x7bunclosed" []).1 = .ok "\x7bunclosed" := by
  refine ⟨?_, rfl⟩
  intro s args fuel h
  show (evalASTGo (renderT fuel) (insertC [] s (ParseTemplate s)) args
    (ParseTemplate s)).1 = .ok s
  rw [show ParseTemplate s = parseGoN s.toList.length s.toList [] from rfl,
    parseGoN_no_close s.toList.length s.toList [] le_rfl h (renderT fuel)
      (insertC [] s (parseGoN s.toList.length s.toList [])) args]
  rfl

/-- Witness for C2 at a closing-brace-free template. -/
theorem c2_tolerant_parse_witness :
    (renderT 1 [] "abc" []).1 = .ok "abc" :=
  c2_tolerant_parse.1 "abc" [] 0 (by decide)

/-! ## C6 -/

/-- A cache is coherent when every stored AST is the parse of its key — the
invariant the render loop maintains, since it only ever stores
`ParseTemplate tpl` under `tpl`. -/
def Coherent (c : Cache) : Prop :=
  ∀ s ast, lookupC c s = some ast → ast = ParseTemplate s

/-- The empty cache is coherent. -/
theorem coherent_nil : Coherent [] := by
  intro s ast h
  simp [lookupC] at h

/-- Storing the parse of a template preserves coherence. -/
theorem coherent_insert (c : Cache) (tpl : String) (h : Coherent c) :
    Coherent (insertC c tpl (ParseTemplate tpl)) := by
  intro s ast hl
  simp only [insertC, lookupC] at hl
  by_cases he : tpl = s
  · rw [if_pos he] at hl
    cases hl
    rw [he]
  · rw [if_neg he] at hl
    exact h s ast hl

/-- The cache state after the lookup/parse/store preamble of one render
call. -/
def cacheAfter (c : Cache) (tpl : String) : Cache :=
  match lookupC c tpl with
  | some _ => c
  | none => insertC c tpl (ParseTemplate tpl)

/-- On a coherent cache, one render step always evaluates the parse of the
template (from the cache on a hit, freshly parsed on a miss) in the
`cacheAfter` state. -/
theorem renderT_succ_eq (fuel : Nat) (c : Cache) (tpl : String) (args : Args)
    (h : Coherent c) :
    renderT (fuel+1) c tpl args =
      evalASTGo (renderT fuel) (cacheAfter c tpl) args (ParseTemplate tpl) := by
  simp only [renderT, cacheAfter]
  rcases hl : lookupC c tpl with _ | ast
  · rfl
  · rw [h tpl ast hl]

/-- The post-preamble cache state is coherent. -/
theorem cacheAfter_coherent (c : Cache) (tpl : String) (h : Coherent c) :
    Coherent (cacheAfter c tpl) := by
  unfold cacheAfter
  rcases hl : lookupC c tpl with _ | ast
  · exact coherent_insert c tpl h
  · exact h

/-- Two render callbacks agree when, run on any two coherent caches with the
same template and arguments, they return the same result and leave coherent
caches. -/
def RenderAgree (r1 r2 : Cache → String → Args → Except String String × Cache) : Prop :=
  ∀ (c1 c2 : Cache) (tpl : String) (args : Args), Coherent c1 → Coherent c2 →
    (r1 c1 tpl args).1 = (r2 c2 tpl args).1 ∧
    Coherent (r1 c1 tpl args).2 ∧ Coherent (r2 c2 tpl args).2

/-- Node evaluation under agreeing callbacks returns cache-independent
results and preserves coherence: the cache can only influence evaluation
through the conditional's recursive render. -/
theorem evalNodeGo_agree (r1 r2 : Cache → String → Args → Except String String × Cache)
    (hr : RenderAgree r1 r2) (args : Args) (n : Node) :
    ∀ c1 c2, Coherent c1 → Coherent c2 →
      (evalNodeGo r1 c1 args n).1 = (evalNodeGo r2 c2 args n).1 ∧
      Coherent (evalNodeGo r1 c1 args n).2 ∧ Coherent (evalNodeGo r2 c2 args n).2 := by
  intro c1 c2 h1 h2
  cases n with
  | text s => exact ⟨rfl, h1, h2⟩
  | placeholder p =>
    cases hv : getValueByPath args p.path with
    | none => simp only [evalNodeGo, hv]; exact ⟨by trivial, h1, h2⟩
    | some v =>
      cases hf : applyFormatters p.formatters v with
      | error e => simp only [evalNodeGo, hv, hf]; exact ⟨by trivial, h1, h2⟩
      | ok v2 =>
        cases hc : p.cond with
        | none => simp only [evalNodeGo, hv, hf, hc]; exact ⟨by trivial, h1, h2⟩
        | some cond =>
          cases hcmp : compareValues v2 cond.op cond.testValue with
          | error e =>
            simp only [evalNodeGo, hv, hf, hc, hcmp]
            exact ⟨by trivial, h1, h2⟩
          | ok b =>
            simp only [evalNodeGo, hv, hf, hc, hcmp]
            exact hr c1 c2 _ args h1 h2

/-- AST evaluation under agreeing callbacks returns cache-independent
results and preserves coherence. -/
theorem evalASTGo_agree (r1 r2 : Cache → String → Args → Except String String × Cache)
    (hr : RenderAgree r1 r2) (args : Args) :
    ∀ (ast : TemplateAST) (c1 c2 : Cache), Coherent c1 → Coherent c2 →
      (evalASTGo r1 c1 args ast).1 = (evalASTGo r2 c2 args ast).1 ∧
      Coherent (evalASTGo r1 c1 args ast).2 ∧ Coherent (evalASTGo r2 c2 args ast).2 := by
  intro ast
  induction ast with
  | nil => intro c1 c2 h1 h2; exact ⟨rfl, h1, h2⟩
  | cons n rest ih =>
    intro c1 c2 h1 h2
    obtain ⟨hne, hnc1, hnc2⟩ := evalNodeGo_agree r1 r2 hr args n c1 c2 h1 h2
    rcases e1 : evalNodeGo r1 c1 args n with ⟨v1, d1⟩
    rcases e2 : evalNodeGo r2 c2 args n with ⟨v2, d2⟩
    rw [e1, e2] at hne
    rw [e1] at hnc1
    rw [e2] at hnc2
    simp only at hne hnc1 hnc2
    subst hne
    simp only [evalASTGo, e1, e2]
    cases v1 with
    | error e => exact ⟨rfl, hnc1, hnc2⟩
    | ok s =>
      dsimp only
      obtain ⟨hre, hrc1, hrc2⟩ := ih d1 d2 hnc1 hnc2
      rcases f1 : evalASTGo r1 d1 args rest with ⟨w1, g1⟩
      rcases f2 : evalASTGo r2 d2 args rest with ⟨w2, g2⟩
      rw [f1, f2] at hre
      rw [f1] at hrc1
      rw [f2] at hrc2
      simp only at hre hrc1 hrc2
      subst hre
      cases w1 with
      | error e => exact ⟨rfl, hrc1, hrc2⟩
      | ok s2 => exact ⟨rfl, hrc1, hrc2⟩

/-- The fuelled render agrees with itself across any two coherent caches:
the cache contents never change a render result, and coherence is
preserved. -/
theorem renderT_agree : ∀ fuel, RenderAgree (renderT fuel) (renderT fuel) := by
  intro fuel
  induction fuel with
  | zero => intro c1 c2 tpl args h1 h2; exact ⟨rfl, h1, h2⟩
  | succ n ih =>
    intro c1 c2 tpl args h1 h2
    rw [renderT_succ_eq n c1 tpl args h1, renderT_succ_eq n c2 tpl args h2]
    exact evalASTGo_agree _ _ ih args (ParseTemplate tpl) _ _
      (cacheAfter_coherent c1 tpl h1) (cacheAfter_coherent c2 tpl h2)

/-- C6: parsing is deterministic and idempotent (it is a pure function of
the template string), and the cache is semantics-preserving: on any coherent
cache — in particular whether the AST is found in the cache or freshly
parsed — a render returns exactly the result it returns on the empty cache,
and the cache stays coherent, holding only parses of template strings (never
rendered output). -/
theorem c6_cache_semantics :
    (∀ s : String, ParseTemplate s = ParseTemplate s) ∧
    (∀ (fuel : Nat) (c : Cache) (tpl : String) (args : Args), Coherent c →
        (renderT fuel c tpl args).1 = (renderT fuel [] tpl args).1 ∧
        Coherent (renderT fuel c tpl args).2) := by
  refine ⟨fun s => rfl, ?_⟩
  intro fuel c tpl args h
  obtain ⟨he, hc1, _⟩ := renderT_agree fuel c [] tpl args h coherent_nil
  exact ⟨he, hc1⟩

/-- Witness for C6: a cache already holding the parse of another template
does not change a render result. -/
theorem c6_cache_semantics_witness :
    (renderT 1 [("k", ParseTemplate "k")] "ab" []).1 = (renderT 1 [] "ab" []).1 ∧
    Coherent (renderT 1 [("k", ParseTemplate "k")] "ab" []).2 :=
  c6_cache_semantics.2 1 [("k", ParseTemplate "k")] "ab" [] (by
    intro s ast h
    simp only [lookupC] at h
    by_cases he : ("k" : String) = s
    · rw [if_pos he] at h
      cases h
      rw [he]
    · rw [if_neg he] at h
      cases h)

/-! ## C7 -/

/-- C7 counterexample: parsing `{|upper}` constructs a `PlaceholderNode`
whose path is empty — `parsePlaceholder` only rejects an expression that is
entirely empty after trimming, not an empty first segment, so the claimed
invariant that every parsed placeholder has a non-empty path fails. -/
theorem c7_empty_path_cx :
    ParseTemplate "\x7b|upper\x7d" =
      [.placeholder ⟨"", [⟨"upper", ""⟩], none⟩] := rfl

/-- C7 amended: a placeholder whose entire inner expression trims to empty
fails to parse and the parser emits the original text verbatim, braces
included; but a placeholder whose first `|`-segment is empty while later
segments parse constructs a node with an empty path. -/
theorem c7_empty_path_amended :
    (∀ expr : String, goTrim expr = "" →
        parsePlaceholder expr = .error "empty placeholder expression") ∧
    ParseTemplate "\x7b \x7d" = [.text "\x7b \x7d"] := by
  refine ⟨?_, rfl⟩
  intro expr h
  simp only [parsePlaceholder, h, if_pos]

/-- Witness for the amended C7 at a whitespace-only placeholder body. -/
theorem c7_empty_path_amended_witness :
    parsePlaceholder " " = .error "empty placeholder expression" :=
  c7_empty_path_amended.1 " " rfl

/-! ## C8 -/

/-- C8 counterexample: the inner text of
`{count|eq:0?{x|upper}:other}` is split on every `|` with no brace
awareness, so the conditional segment ends at `eq:0?{x`, its branch part has
no colon, `parsePlaceholder` fails, and the whole span degrades to a literal
text node instead of parsing into a `PlaceholderNode` with the conditional. -/
theorem c8_piped_branch_cx :
    ParseTemplate "\x7bcount|eq:0?\x7bx|upper\x7d:other\x7d" =
      [.text "\x7bcount|eq:0?\x7bx|upper\x7d:other\x7d"] := rfl

/-- C8 amended: the split on `|` is naive and also cuts inside brace pairs,
so a conditional whose true branch contains a piped formatter does not parse
into a placeholder — the truncated segment `eq:0?\x7bx` has no colon after
the `?` and is rejected; when the pipe sits in the false branch the
placeholder does parse, but with the false branch truncated at the pipe and
a bogus trailing formatter segment. -/
theorem c8_piped_branch_amended :
    parsePlaceholder "count|eq:0?\x7bx|upper\x7d:other" =
      .error "invalid conditional: eq:0?\x7bx" ∧
    ParseTemplate "\x7bc|eq:0?A:\x7bx|upper\x7d\x7d" =
      [.placeholder ⟨"c", [⟨"upper\x7d", ""⟩], some ⟨"eq", "0", "A", "\x7bx"⟩⟩] :=
  ⟨rfl, rfl⟩

/-! ## C9 -/

/-- C9 counterexample: the number formatter parses its precision with
`strconv.Atoi`, which accepts the negative integer `-1`; the call then
succeeds (building a malformed `%.-1f` verb whose bad-verb output is passed
through the thousands separator) instead of failing as the claim requires
for an argument that is not a non-negative integer. -/
theorem c9_number_precision_cx :
    formatNumber (.vInt 5) "-1" = .ok "%,!-(,flo,at6,4=5,)1f" := rfl

/-- C9 amended: the precision defaults to 0 and must parse as an integer —
possibly negative: any argument string that `strconv.Atoi` rejects is an
error, while a negative integer is accepted and produces malformed bad-verb
output rather than an error; the validator likewise accepts a negative
precision. -/
theorem c9_number_precision_amended :
    (∀ d : Dec, formatNumber (.vFloat d) "" =
        .ok (addThousandsSep (fixedFmt d 0))) ∧
    (∀ (d : Dec) (arg : String), arg ≠ "" → goAtoi arg = none →
        formatNumber (.vFloat d) arg =
          .error ("number formatter: invalid precision " ++ quoteGo arg)) ∧
    ValidateTemplate "\x7bx|number:-1\x7d" = .ok () := by
  refine ⟨?_, ?_, rfl⟩
  · intro d
    simp only [formatNumber, goSprintfDotF, if_pos, Int.toNat]
    rfl
  · intro d arg h1 h2
    simp only [formatNumber, h2, if_neg h1]

/-- Witness for the amended C9 at a non-integer precision argument. -/
theorem c9_number_precision_amended_witness :
    formatNumber (.vFloat ⟨5, 0⟩) "x" =
      .error ("number formatter: invalid precision " ++ quoteGo "x") :=
  c9_number_precision_amended.2.1 ⟨5, 0⟩ "x" (by decide) rfl

/-! ## C10 -/

/-- C10: `Locale.T` returns the key itself when the locale has no bundle or
no language in the fallback chain holds a message for the key; when the
first language holding the key yields a message whose render fails, the raw
untranslated text is returned unchanged; only a successful render's output
is returned. -/
theorem c10_locale_t :
    (∀ (fuel : Nat) (c : Cache) (langs : List String) (key : String) (args : Args),
        localeT fuel c ⟨none, langs⟩ key args = key) ∧
    (∀ (fuel : Nat) (c : Cache) (b : Bundle) (key : String) (args : Args)
       (langs : List String),
        (∀ lang ∈ langs, msgLookup b lang key = none) →
        localeTGo fuel c b key args langs = key) ∧
    (∀ (fuel : Nat) (c : Cache) (b : Bundle) (key : String) (args : Args)
       (lang : String) (rest : List String) (text res : String),
        msgLookup b lang key = some text →
        (renderT fuel c text args).1 = .ok res →
        localeTGo fuel c b key args (lang :: rest) = res) ∧
    (∀ (fuel : Nat) (c : Cache) (b : Bundle) (key : String) (args : Args)
       (lang : String) (rest : List String) (text e : String),
        msgLookup b lang key = some text →
        (renderT fuel c text args).1 = .error e →
        localeTGo fuel c b key args (lang :: rest) = text) := by
  refine ⟨fun fuel c langs key args => rfl, ?_, ?_, ?_⟩
  · intro fuel c b key args langs h
    induction langs with
    | nil => rfl
    | cons lang rest ih =>
      have h1 : msgLookup b lang key = none := h lang (List.mem_cons_self ..)
      have h2 := ih (fun l hl => h l (List.mem_cons_of_mem _ hl))
      simp only [localeTGo, h1, h2]
  · intro fuel c b key args lang rest text res h1 h2
    simp only [localeTGo, h1, h2]
  · intro fuel c b key args lang rest text e h1 h2
    simp only [localeTGo, h1, h2]

/-- Witness for C10 at a concrete one-language bundle whose message renders
successfully. -/
theorem c10_locale_t_witness :
    localeTGo 2 [] ⟨[("en", [("greet", "Hello \x7bname\x7d")])]⟩ "greet"
        [("name", Value.vStr "Tom")] ["en"] = "Hello Tom" :=
  c10_locale_t.2.2.1 2 [] ⟨[("en", [("greet", "Hello \x7bname\x7d")])]⟩ "greet"
    [("name", Value.vStr "Tom")] "en" [] "Hello \x7bname\x7d" "Hello Tom" rfl rfl

end I18n
